import Mathlib

/-!
Shallow embedding of the budouy repository (a Rust port of the BudouX
line-break segmenter) and proofs about it.

Strings are embedded as `List Char` (Rust iterates `char`s, i.e. Unicode
scalar values).  Model weights are `i32` in the source and are converted to
`f64` before use; every score the program computes is a sum of integer
weights plus `base_score = -0.5 * (sum of all weights)`, i.e. an exact
half-integer, and `f64` arithmetic is exact on these values (they are far
below 2^53), so the comparison `score > 0.0` is decided exactly.  To keep
everything kernel-computable we embed the DOUBLED score in `Int`:
`score2 = 2 * score` throughout, and `score > 0.0` iff `0 < score2`.

Embedded from src/src/parser.rs, src/src/model.rs and
src/src/html_processor.rs.
-/

/-- Feature keys of the model (src/src/model.rs, `enum FeatureKey`). -/
inductive FeatureKey where
  | UW1 | UW2 | UW3 | UW4 | UW5 | UW6
  | BW1 | BW2 | BW3
  | TW1 | TW2 | TW3 | TW4
deriving DecidableEq, BEq, Repr

/-- Inner model map (src/src/model.rs `InnerModel = HashMap<String, i32>`),
embedded as an association list from strings to integer weights. -/
abbrev InnerModel := List (List Char × Int)

/-- Model (src/src/model.rs `Model = HashMap<FeatureKey, InnerModel>`),
embedded as an association list. -/
abbrev Model := List (FeatureKey × InnerModel)

/-- The parser structure (src/src/parser.rs `struct Parser`).  The source
stores `base_score = -0.5 * total`; we store the doubled value
`base_score2 = -total` to stay in `Int`. -/
structure Parser where
  model : Model
  base_score2 : Int

/-- Parser construction (src/src/parser.rs `Parser::new`): the base score is
`-0.5` times the sum of all weights in the model; doubled here. -/
def Parser.new (model : Model) : Parser :=
  let total : Int := (model.map (fun group => (group.2.map (fun v => v.2)).sum)).sum
  { model := model, base_score2 := -total }

/-- Weight lookup (src/src/parser.rs `Parser::weight`): look up the group,
then the key, defaulting to 0 when either is absent. -/
def Parser.weight (p : Parser) (group : FeatureKey) (key : List Char) : Int :=
  (((p.model.lookup group).bind (fun map => map.lookup key)).getD 0)

/-- Substring extraction (src/src/parser.rs `fn substring`): empty when
`start ≥ fin`, otherwise the slice `chars[start..fin]`.  At every call site
`fin ≤ chars.length`, so `drop`/`take` agrees with Rust slicing. -/
def substring (chars : List Char) (start fin : Nat) : List Char :=
  if start ≥ fin then [] else (chars.drop start).take (fin - start)

/-- Per-candidate score, doubled (the loop body of src/src/parser.rs
`Parser::parse_boundaries_from_chars`, lines 55–89; each weight term of the
source appears here multiplied by 2).  Nat subtraction is saturating,
matching `usize::saturating_sub`. -/
def Parser.score2 (p : Parser) (chars : List Char) (i : Nat) : Int :=
  let len := chars.length
  p.base_score2
  + 2 * p.weight FeatureKey.UW1 (substring chars (i - 3) (i - 2))
  + 2 * p.weight FeatureKey.UW2 (substring chars (i - 2) (i - 1))
  + 2 * p.weight FeatureKey.UW3 (substring chars (i - 1) i)
  + 2 * p.weight FeatureKey.UW4 (substring chars i (min (i + 1) len))
  + 2 * p.weight FeatureKey.UW5 (substring chars (min (i + 1) len) (min (i + 2) len))
  + 2 * p.weight FeatureKey.UW6 (substring chars (min (i + 2) len) (min (i + 3) len))
  + 2 * p.weight FeatureKey.BW1 (substring chars (i - 2) i)
  + 2 * p.weight FeatureKey.BW2 (substring chars (i - 1) (min (i + 1) len))
  + 2 * p.weight FeatureKey.BW3 (substring chars i (min (i + 2) len))
  + 2 * p.weight FeatureKey.TW1 (substring chars (i - 3) i)
  + 2 * p.weight FeatureKey.TW2 (substring chars (i - 2) (min (i + 1) len))
  + 2 * p.weight FeatureKey.TW3 (substring chars (i - 1) (min (i + 2) len))
  + 2 * p.weight FeatureKey.TW4 (substring chars i (min (i + 3) len))

/-- Boundary computation (src/src/parser.rs
`Parser::parse_boundaries_from_chars`): the loop `for i in 1..len` pushing
every `i` whose score is strictly positive, embedded as a filter over the
ascending range. -/
def Parser.parse_boundaries_from_chars (p : Parser) (chars : List Char) : List Nat :=
  if chars.length = 0 then []
  else (List.range' 1 (chars.length - 1)).filter (fun i => decide (0 < p.score2 chars i))

/-- Split helper (loop of src/src/parser.rs `fn split_by_boundaries` with the
running `start` offset made explicit; `chars[start..b]` and the trailing
`chars[start..]` are in range at every call site by the boundary bounds). -/
def split_go (chars : List Char) (start : Nat) : List Nat → List (List Char)
  | [] => [chars.drop start]
  | b :: bs => ((chars.drop start).take (b - start)) :: split_go chars b bs

/-- Splitting a character sequence at the given boundaries
(src/src/parser.rs `fn split_by_boundaries`). -/
def split_by_boundaries (chars : List Char) (boundaries : List Nat) : List (List Char) :=
  split_go chars 0 boundaries

/-- Sentence splitting (src/src/parser.rs `Parser::parse`). -/
def Parser.parse (p : Parser) (sentence : List Char) : List (List Char) :=
  if sentence.isEmpty then []
  else split_by_boundaries sentence (p.parse_boundaries_from_chars sentence)

/-! Spec-side definitions for claim C1.  `specSlice` follows the spec's
wording: a slice `chars[a : b]` whose indices are clamped to `[0, length]`,
empty when the clamped bounds cross. -/

/-- Modelled from the spec: slice with both indices clamped to
`[0, length]` (spec §4.1, "every slice index is clamped to `[0, length]`"). -/
def specSlice (chars : List Char) (a b : Int) : List Char :=
  let len : Int := chars.length
  let lo : Nat := (max 0 (min a len)).toNat
  let hi : Nat := (max 0 (min b len)).toNat
  (chars.drop lo).take (hi - lo)

/-- Modelled from the spec: the per-candidate score of spec §4.1 (doubled,
like `Parser.score2`), with the 13 windows written with integer indices
relative to the candidate `i`, each slice clamped to `[0, length]`; lookups
of absent entries yield 0 (via `Parser.weight`). -/
def specScore2 (p : Parser) (chars : List Char) (i : Nat) : Int :=
  p.base_score2
  + 2 * p.weight FeatureKey.UW1 (specSlice chars ((i : Int) - 3) ((i : Int) - 2))
  + 2 * p.weight FeatureKey.UW2 (specSlice chars ((i : Int) - 2) ((i : Int) - 1))
  + 2 * p.weight FeatureKey.UW3 (specSlice chars ((i : Int) - 1) (i : Int))
  + 2 * p.weight FeatureKey.UW4 (specSlice chars (i : Int) ((i : Int) + 1))
  + 2 * p.weight FeatureKey.UW5 (specSlice chars ((i : Int) + 1) ((i : Int) + 2))
  + 2 * p.weight FeatureKey.UW6 (specSlice chars ((i : Int) + 2) ((i : Int) + 3))
  + 2 * p.weight FeatureKey.BW1 (specSlice chars ((i : Int) - 2) (i : Int))
  + 2 * p.weight FeatureKey.BW2 (specSlice chars ((i : Int) - 1) ((i : Int) + 1))
  + 2 * p.weight FeatureKey.BW3 (specSlice chars (i : Int) ((i : Int) + 2))
  + 2 * p.weight FeatureKey.TW1 (specSlice chars ((i : Int) - 3) (i : Int))
  + 2 * p.weight FeatureKey.TW2 (specSlice chars ((i : Int) - 2) ((i : Int) + 1))
  + 2 * p.weight FeatureKey.TW3 (specSlice chars ((i : Int) - 1) ((i : Int) + 2))
  + 2 * p.weight FeatureKey.TW4 (specSlice chars (i : Int) ((i : Int) + 3))

/-- Modelled from the claim C1 reading of the spec: the weight contribution
of a window is 0 whenever the slice is empty (spec §4.1, "an empty or
out-of-range slice contributes a zero-weight lookup"). -/
def claimWeight (p : Parser) (group : FeatureKey) (key : List Char) : Int :=
  if key = [] then 0 else p.weight group key

/-- Modelled from the claim C1 reading of the spec: the per-candidate score
(doubled) where empty slices contribute exactly 0. -/
def claimScore2 (p : Parser) (chars : List Char) (i : Nat) : Int :=
  p.base_score2
  + 2 * claimWeight p FeatureKey.UW1 (specSlice chars ((i : Int) - 3) ((i : Int) - 2))
  + 2 * claimWeight p FeatureKey.UW2 (specSlice chars ((i : Int) - 2) ((i : Int) - 1))
  + 2 * claimWeight p FeatureKey.UW3 (specSlice chars ((i : Int) - 1) (i : Int))
  + 2 * claimWeight p FeatureKey.UW4 (specSlice chars (i : Int) ((i : Int) + 1))
  + 2 * claimWeight p FeatureKey.UW5 (specSlice chars ((i : Int) + 1) ((i : Int) + 2))
  + 2 * claimWeight p FeatureKey.UW6 (specSlice chars ((i : Int) + 2) ((i : Int) + 3))
  + 2 * claimWeight p FeatureKey.BW1 (specSlice chars ((i : Int) - 2) (i : Int))
  + 2 * claimWeight p FeatureKey.BW2 (specSlice chars ((i : Int) - 1) ((i : Int) + 1))
  + 2 * claimWeight p FeatureKey.BW3 (specSlice chars (i : Int) ((i : Int) + 2))
  + 2 * claimWeight p FeatureKey.TW1 (specSlice chars ((i : Int) - 3) (i : Int))
  + 2 * claimWeight p FeatureKey.TW2 (specSlice chars ((i : Int) - 2) ((i : Int) + 1))
  + 2 * claimWeight p FeatureKey.TW3 (specSlice chars ((i : Int) - 1) ((i : Int) + 2))
  + 2 * claimWeight p FeatureKey.TW4 (specSlice chars (i : Int) ((i : Int) + 3))

/-- Modelled from the claim C1 reading of the spec: the boundary list that
results when empty slices contribute 0. -/
def claimBoundaries (p : Parser) (chars : List Char) : List Nat :=
  if chars.length = 0 then []
  else (List.range' 1 (chars.length - 1)).filter (fun i => decide (0 < claimScore2 p chars i))

example : (Parser.new [(FeatureKey.UW4, [(['a'], 10000)])]).parse
    ['a','b','c','d','e','a','b','c','d']
    = [['a','b','c','d','e'], ['a','b','c','d']] := by decide

example : (Parser.new [(FeatureKey.UW4, [(['b'], 10000)])]).parse
    ['a','b','c','d','e','a','b','c','d']
    = [['a'], ['b','c','d','e','a'], ['b','c','d']] := by decide

/-! Helper lemmas about the scorer. -/

lemma substring_eq_drop_take (chars : List Char) (s e : Nat) :
    substring chars s e = (chars.drop s).take (e - s) := by
  unfold substring
  split
  · have h0 : e - s = 0 := by omega
    simp [h0]
  · rfl

lemma specSlice_eq (chars : List Char) (a b : Int) :
    specSlice chars a b
      = substring chars ((max 0 (min a (chars.length : Int))).toNat)
          ((max 0 (min b (chars.length : Int))).toNat) := by
  rw [substring_eq_drop_take]
  rfl

lemma specScore2_eq_score2 (p : Parser) (chars : List Char) (i : Nat)
    (h : i ≤ chars.length) : specScore2 p chars i = p.score2 chars i := by
  have e3 : (max 0 (min ((i : Int) - 3) (chars.length : Int))).toNat = i - 3 := by omega
  have e2 : (max 0 (min ((i : Int) - 2) (chars.length : Int))).toNat = i - 2 := by omega
  have e1 : (max 0 (min ((i : Int) - 1) (chars.length : Int))).toNat = i - 1 := by omega
  have e0 : (max 0 (min ((i : Int)) (chars.length : Int))).toNat = i := by omega
  have q1 : (max 0 (min ((i : Int) + 1) (chars.length : Int))).toNat
      = min (i + 1) chars.length := by omega
  have q2 : (max 0 (min ((i : Int) + 2) (chars.length : Int))).toNat
      = min (i + 2) chars.length := by omega
  have q3 : (max 0 (min ((i : Int) + 3) (chars.length : Int))).toNat
      = min (i + 3) chars.length := by omega
  simp only [specScore2, Parser.score2, specSlice_eq, e3, e2, e1, e0, q1, q2, q3]

lemma pbs_mem_bounds {p : Parser} {chars : List Char} {b : Nat}
    (h : b ∈ p.parse_boundaries_from_chars chars) : 1 ≤ b ∧ b < chars.length := by
  unfold Parser.parse_boundaries_from_chars at h
  split at h
  · simp at h
  · rw [List.mem_filter, List.mem_range'_1] at h
    omega

lemma pbs_pairwise (p : Parser) (chars : List Char) :
    List.Pairwise (· < ·) (p.parse_boundaries_from_chars chars) := by
  unfold Parser.parse_boundaries_from_chars
  split
  · exact List.Pairwise.nil
  · exact (List.pairwise_lt_range' 1 (chars.length - 1)).filter _

lemma pbs_mem_iff {p : Parser} {chars : List Char} {i : Nat} :
    i ∈ p.parse_boundaries_from_chars chars
      ↔ 1 ≤ i ∧ i < chars.length ∧ 0 < p.score2 chars i := by
  unfold Parser.parse_boundaries_from_chars
  split
  · simp
    omega
  · rw [List.mem_filter, List.mem_range'_1]
    simp only [decide_eq_true_eq]
    omega


lemma split_go_join (chars : List Char) :
    ∀ (bs : List Nat) (start : Nat), List.Chain (· ≤ ·) start bs →
      (split_go chars start bs).join = chars.drop start := by
  intro bs
  induction bs with
  | nil => intro start _; simp [split_go]
  | cons b bs ih =>
    intro start hchain
    rcases List.chain_cons.mp hchain with ⟨hle, hchain'⟩
    have hdrop : chars.drop b = (chars.drop start).drop (b - start) := by
      rw [List.drop_drop]
      congr 1
      omega
    simp only [split_go, List.join_cons, ih b hchain', hdrop, List.take_append_drop]

lemma split_go_length (chars : List Char) :
    ∀ (bs : List Nat) (start : Nat), (split_go chars start bs).length = bs.length + 1 := by
  intro bs
  induction bs with
  | nil => intro start; simp [split_go]
  | cons b bs ih => intro start; simp [split_go, ih]

lemma split_go_nonempty (chars : List Char) :
    ∀ (bs : List Nat) (start : Nat), start < chars.length →
      List.Chain (· < ·) start bs → (∀ b ∈ bs, b < chars.length) →
      ∀ c ∈ split_go chars start bs, c ≠ [] := by
  intro bs
  induction bs with
  | nil =>
    intro start hstart _ _ c hc
    simp only [split_go, List.mem_singleton] at hc
    subst hc
    simp only [ne_eq, List.drop_eq_nil_iff]
    omega
  | cons b bs ih =>
    intro start hstart hchain hmem c hc
    rcases List.chain_cons.mp hchain with ⟨hlt, hchain'⟩
    have hb : b < chars.length := hmem b (by simp)
    simp only [split_go, List.mem_cons] at hc
    rcases hc with hc | hc
    · subst hc
      have hlen : ((chars.drop start).take (b - start)).length = min (b - start) (chars.length - start) := by
        simp
      intro hnil
      rw [hnil] at hlen
      simp at hlen
      omega
    · exact ih b hb hchain' (fun x hx => hmem x (by simp [hx])) c hc

lemma pbs_chain_le (p : Parser) (chars : List Char) :
    List.Chain (· ≤ ·) 0 (p.parse_boundaries_from_chars chars) := by
  rw [List.chain_iff_pairwise, List.pairwise_cons]
  constructor
  · intro b _; omega
  · exact (pbs_pairwise p chars).imp (fun h => Nat.le_of_lt h)

lemma pbs_chain_lt (p : Parser) (chars : List Char) :
    List.Chain (· < ·) 0 (p.parse_boundaries_from_chars chars) := by
  rw [List.chain_iff_pairwise, List.pairwise_cons]
  constructor
  · intro b hb; exact (pbs_mem_bounds hb).1
  · exact pbs_pairwise p chars

/-! Claim theorems for the scorer. -/

/-- Claim C1, counterexample: the claim asserts that an empty slice always
contributes weight 0, but the code looks the empty string up in the model:
for the model `{UW1: {"": 4}}` on input `"ab"`, offset 1 is returned as a
boundary (score `-2 + 4 = 2 > 0`) although the claim-side score (empty
slices contribute 0) is `-2 ≤ 0`, so the claim's boundary predicate
disagrees with the implementation. -/
theorem scorer_empty_slice_weight_cex :
    1 ∈ (Parser.new [(FeatureKey.UW1, [([], 4)])]).parse_boundaries_from_chars ['a', 'b']
    ∧ 1 ∉ claimBoundaries (Parser.new [(FeatureKey.UW1, [([], 4)])]) ['a', 'b'] := by
  decide

/-- Claim C1, amended: for every weight model and character sequence, offset
`i` is returned as a boundary exactly when `1 ≤ i < length` and the spec
score — base score plus the 13 feature weights over their spec windows with
every slice index clamped to `[0, length]`, missing map entries (and, as
amended, empty slices via their empty-string lookup) contributing 0 — is
strictly positive.  Scores are doubled (`specScore2 = 2 * score`), which
preserves the sign. -/
theorem scorer_boundary_iff_spec_score (p : Parser) (chars : List Char) (i : Nat) :
    i ∈ p.parse_boundaries_from_chars chars
      ↔ 1 ≤ i ∧ i < chars.length ∧ 0 < specScore2 p chars i := by
  rw [pbs_mem_iff]
  constructor
  · rintro ⟨h1, h2, h3⟩
    exact ⟨h1, h2, by rw [specScore2_eq_score2 p chars i (Nat.le_of_lt h2)]; exact h3⟩
  · rintro ⟨h1, h2, h3⟩
    rw [specScore2_eq_score2 p chars i (Nat.le_of_lt h2)] at h3
    exact ⟨h1, h2, h3⟩

/-- Claim C2: for every weight model and input character sequence, the
boundary offsets are strictly between 0 and the sequence length, strictly
increasing, and duplicate-free. -/
theorem scorer_boundaries_sorted_in_range (p : Parser) (chars : List Char) :
    (∀ b ∈ p.parse_boundaries_from_chars chars, 0 < b ∧ b < chars.length)
    ∧ List.Pairwise (· < ·) (p.parse_boundaries_from_chars chars)
    ∧ (p.parse_boundaries_from_chars chars).Nodup := by
  refine ⟨fun b hb => ?_, pbs_pairwise p chars, ?_⟩
  · have := pbs_mem_bounds hb
    omega
  · exact (pbs_pairwise p chars).imp (fun h => Nat.ne_of_lt h)

/-- Claim C2 witness at a concrete model and input. -/
theorem scorer_boundaries_sorted_in_range_witness :
    0 < 1 ∧ 1 < (['a', 'b'] : List Char).length :=
  (scorer_boundaries_sorted_in_range
      (Parser.new [(FeatureKey.UW4, [(['b'], 10000)])]) ['a', 'b']).1 1 (by decide)

/-- Claim C3: for every weight model and sentence, concatenating all chunks
returned by `parse` in order reproduces the sentence exactly. -/
theorem parse_join_round_trip (p : Parser) (sentence : List Char) :
    (p.parse sentence).join = sentence := by
  unfold Parser.parse
  split
  · rename_i h
    rw [List.isEmpty_iff] at h
    simp [h]
  · unfold split_by_boundaries
    rw [split_go_join sentence (p.parse_boundaries_from_chars sentence) 0 (pbs_chain_le p sentence)]
    simp

/-- Claim C9: for every weight model and non-empty sentence, every chunk
returned by `parse` is non-empty and the number of chunks equals the number
of boundaries plus one. -/
theorem parse_chunks_nonempty_count (p : Parser) (sentence : List Char)
    (h : sentence ≠ []) :
    (∀ c ∈ p.parse sentence, c ≠ [])
    ∧ (p.parse sentence).length = (p.parse_boundaries_from_chars sentence).length + 1 := by
  have hne : sentence.isEmpty = false := by
    cases sentence with
    | nil => exact absurd rfl h
    | cons a l => rfl
  constructor
  · intro c hc
    unfold Parser.parse at hc
    rw [hne] at hc
    simp only [Bool.false_eq_true, if_false] at hc
    refine split_go_nonempty sentence _ 0 ?_ (pbs_chain_lt p sentence)
      (fun b hb => (pbs_mem_bounds hb).2) c hc
    cases sentence with
    | nil => exact absurd rfl h
    | cons a l => simp
  · unfold Parser.parse
    rw [hne]
    simp only [Bool.false_eq_true, if_false]
    exact split_go_length sentence _ 0

/-- Claim C9 witness at a concrete model and sentence. -/
theorem parse_chunks_nonempty_count_witness :
    (['a', 'b'] : List Char) ≠ []
    ∧ ((Parser.new []).parse ['a', 'b']).length
        = ((Parser.new []).parse_boundaries_from_chars ['a', 'b']).length + 1 :=
  ⟨by decide, (parse_chunks_nonempty_count (Parser.new []) ['a', 'b'] (by decide)).2⟩

/-! Model construction from JSON (src/src/model.rs).  The `serde_json`
deserialization of the input string into a `HashMap<String, HashMap<String,
i32>>` is an external collaborator (spec §6); it is abstracted as an
`Except` argument: `Except.error e` when the input is not valid structured
data (carrying the collaborator's message) and `Except.ok raw` with the raw
key-value pairs otherwise.  The in-repository logic — `FeatureKey::from_str`
and the key-validation loop of `parse_model_json` — is embedded below. -/

/-- Raw deserialized model data, before feature-key validation. -/
abbrev RawModel := List (List Char × InnerModel)

/-- Model construction errors (src/src/model.rs `enum ModelError`). -/
inductive ModelError where
  | Json (msg : List Char)
  | UnknownFeature (key : List Char)
deriving DecidableEq, Repr

/-- Feature-key parsing (src/src/model.rs `impl FromStr for FeatureKey`):
exactly the 13 canonical strings succeed (string literals written as
explicit character lists). -/
def FeatureKey.fromStr (s : List Char) : Option FeatureKey :=
  if s = ['U','W','1'] then some FeatureKey.UW1
  else if s = ['U','W','2'] then some FeatureKey.UW2
  else if s = ['U','W','3'] then some FeatureKey.UW3
  else if s = ['U','W','4'] then some FeatureKey.UW4
  else if s = ['U','W','5'] then some FeatureKey.UW5
  else if s = ['U','W','6'] then some FeatureKey.UW6
  else if s = ['B','W','1'] then some FeatureKey.BW1
  else if s = ['B','W','2'] then some FeatureKey.BW2
  else if s = ['B','W','3'] then some FeatureKey.BW3
  else if s = ['T','W','1'] then some FeatureKey.TW1
  else if s = ['T','W','2'] then some FeatureKey.TW2
  else if s = ['T','W','3'] then some FeatureKey.TW3
  else if s = ['T','W','4'] then some FeatureKey.TW4
  else none

/-- The 13 canonical feature tags (spec §3: "feature identifiers are drawn
from exactly 13 canonical tags"). -/
def canonicalTags : List (List Char) :=
  [['U','W','1'], ['U','W','2'], ['U','W','3'], ['U','W','4'], ['U','W','5'], ['U','W','6'],
   ['B','W','1'], ['B','W','2'], ['B','W','3'],
   ['T','W','1'], ['T','W','2'], ['T','W','3'], ['T','W','4']]

/-- Map insertion (`HashMap::insert`: replaces any existing binding). -/
def insertModelKey (m : Model) (k : FeatureKey) (v : InnerModel) : Model :=
  m.filter (fun e => !(e.1 == k)) ++ [(k, v)]

/-- The validation loop of src/src/model.rs `parse_model_json`: parse each
raw key with `FeatureKey::from_str`, failing with `UnknownFeature` on the
first unknown key, inserting each parsed entry otherwise. -/
def parse_model_entries (acc : Model) : RawModel → Except ModelError Model
  | [] => Except.ok acc
  | (k, v) :: rest =>
    match FeatureKey.fromStr k with
    | none => Except.error (ModelError.UnknownFeature k)
    | some fk => parse_model_entries (insertModelKey acc fk v) rest

/-- Model construction (src/src/model.rs `parse_model_json`): a
deserialization failure is surfaced as `ModelError::Json`; otherwise every
raw key must be one of the 13 canonical tags. -/
def parse_model_json (deser : Except (List Char) RawModel) : Except ModelError Model :=
  match deser with
  | Except.error e => Except.error (ModelError.Json e)
  | Except.ok raw => parse_model_entries [] raw

lemma fromStr_isSome_iff (s : List Char) :
    (FeatureKey.fromStr s).isSome = true ↔ s ∈ canonicalTags := by
  constructor
  · intro h
    by_contra hmem
    have hne : ∀ t ∈ canonicalTags, ¬ s = t := fun t ht e => hmem (e ▸ ht)
    rw [FeatureKey.fromStr, if_neg (hne _ (by decide)), if_neg (hne _ (by decide)),
      if_neg (hne _ (by decide)), if_neg (hne _ (by decide)), if_neg (hne _ (by decide)),
      if_neg (hne _ (by decide)), if_neg (hne _ (by decide)), if_neg (hne _ (by decide)),
      if_neg (hne _ (by decide)), if_neg (hne _ (by decide)), if_neg (hne _ (by decide)),
      if_neg (hne _ (by decide)), if_neg (hne _ (by decide))] at h
    simp at h
  · intro h
    simp only [canonicalTags, List.mem_cons, List.not_mem_nil, or_false] at h
    rcases h with h | h | h | h | h | h | h | h | h | h | h | h | h <;> subst h <;> decide

lemma parse_model_entries_ok_iff (raw : RawModel) : ∀ (acc : Model),
    (∃ m, parse_model_entries acc raw = Except.ok m)
      ↔ ∀ kv ∈ raw, (FeatureKey.fromStr kv.1).isSome = true := by
  induction raw with
  | nil => intro acc; simp [parse_model_entries]
  | cons kv rest ih =>
    intro acc
    obtain ⟨k, v⟩ := kv
    simp only [parse_model_entries]
    cases hk : FeatureKey.fromStr k with
    | none => simp [hk]
    | some fk =>
      rw [ih (insertModelKey acc fk v)]
      simp [hk]

lemma parse_model_entries_unknown (raw : RawModel) : ∀ (acc : Model) (k : List Char),
    parse_model_entries acc raw = Except.error (ModelError.UnknownFeature k) →
      (∃ v, (k, v) ∈ raw) ∧ FeatureKey.fromStr k = none := by
  induction raw with
  | nil => intro acc k h; simp [parse_model_entries] at h
  | cons kv rest ih =>
    intro acc k h
    obtain ⟨k0, v0⟩ := kv
    simp only [parse_model_entries] at h
    cases hk : FeatureKey.fromStr k0 with
    | none =>
      rw [hk] at h
      simp only [Except.error.injEq, ModelError.UnknownFeature.injEq] at h
      subst h
      exact ⟨⟨v0, by simp⟩, hk⟩
    | some fk =>
      rw [hk] at h
      obtain ⟨⟨v, hv⟩, hns⟩ := ih (insertModelKey acc fk v0) k h
      exact ⟨⟨v, by simp [hv]⟩, hns⟩

lemma parse_model_entries_not_json (raw : RawModel) : ∀ (acc : Model) (e : List Char),
    parse_model_entries acc raw ≠ Except.error (ModelError.Json e) := by
  induction raw with
  | nil => intro acc e; simp [parse_model_entries]
  | cons kv rest ih =>
    intro acc e
    obtain ⟨k0, v0⟩ := kv
    simp only [parse_model_entries]
    cases hk : FeatureKey.fromStr k0 with
    | none => simp
    | some fk => exact ih (insertModelKey acc fk v0) e

/-- Claim C8: model construction fails with `ModelError::Json e` exactly when
the deserialization collaborator fails (input is not valid structured data),
fails with `ModelError::UnknownFeature` exactly when deserialization
succeeds but some top-level key is outside the 13 canonical feature tags,
and succeeds otherwise; the errors are the returned value itself, never
recovered. -/
theorem parse_model_json_errors (deser : Except (List Char) RawModel) :
    (∀ e, deser = Except.error e →
        parse_model_json deser = Except.error (ModelError.Json e))
    ∧ (∀ raw, deser = Except.ok raw →
        (((∃ m, parse_model_json deser = Except.ok m)
            ↔ ∀ kv ∈ raw, kv.1 ∈ canonicalTags)
         ∧ (∀ k, parse_model_json deser = Except.error (ModelError.UnknownFeature k) →
              (∃ v, (k, v) ∈ raw) ∧ k ∉ canonicalTags)
         ∧ ((∃ kv, kv ∈ raw ∧ kv.1 ∉ canonicalTags) →
              ∃ k, parse_model_json deser = Except.error (ModelError.UnknownFeature k))
         ∧ (∀ e, parse_model_json deser ≠ Except.error (ModelError.Json e)))) := by
  constructor
  · intro e he
    subst he
    rfl
  · intro raw hr
    subst hr
    refine ⟨?_, ?_, ?_, ?_⟩
    · unfold parse_model_json
      rw [parse_model_entries_ok_iff raw []]
      constructor
      · intro h kv hkv
        rw [← fromStr_isSome_iff]
        exact h kv hkv
      · intro h kv hkv
        rw [fromStr_isSome_iff]
        exact h kv hkv
    · intro k h
      obtain ⟨hv, hns⟩ := parse_model_entries_unknown raw [] k h
      refine ⟨hv, ?_⟩
      rw [← fromStr_isSome_iff, hns]
      simp
    · intro ⟨kv, hkv, hnc⟩
      unfold parse_model_json
      cases hres : parse_model_entries [] raw with
      | ok m =>
        exfalso
        have := (parse_model_entries_ok_iff raw []).mp ⟨m, hres⟩ kv hkv
        rw [fromStr_isSome_iff] at this
        exact hnc this
      | error err =>
        cases err with
        | Json e => exact absurd hres (parse_model_entries_not_json raw [] e)
        | UnknownFeature k => exact ⟨k, hres⟩
    · intro e
      exact parse_model_entries_not_json raw [] e

/-- Claim C8 witness: a failed deserialization surfaces as a `Json` error. -/
theorem parse_model_json_errors_witness :
    parse_model_json (Except.error "bad".toList)
      = Except.error (ModelError.Json "bad".toList) :=
  (parse_model_json_errors (Except.error "bad".toList)).1 "bad".toList rfl

/-! HTML tree applier (src/src/html_processor.rs).  The DOM of
`kuchikikiki` is embedded as a node tree: element nodes carry their tag
name and children, text nodes their content, and `other` stands for the
remaining node kinds (comments, processing instructions, ...), which the
collection pass ignores.  `NodeRef` values inside paragraphs are only ever
text nodes (collect_blocks wraps `NodeData::Text` children only), so the
embedded live-node variant carries the node's text content. -/

/-- Zero-width-space codepoint (src/src/html_processor.rs `ZWSP_CODEPOINT`). -/
def ZWSP_CODEPOINT : Nat := 0x200B

/-- Zero-width-space character (src/src/html_processor.rs `ZWSP`). -/
def ZWSPchar : Char := Char.ofNat 0x200B

/-- Unicode `White_Space` codepoints, the set recognized by Rust's
`char::is_whitespace`, used by `str::trim`. -/
def rust_whitespace_codes : List Nat :=
  [0x09, 0x0A, 0x0B, 0x0C, 0x0D, 0x20, 0x85, 0xA0, 0x1680,
   0x2000, 0x2001, 0x2002, 0x2003, 0x2004, 0x2005, 0x2006, 0x2007,
   0x2008, 0x2009, 0x200A, 0x2028, 0x2029, 0x202F, 0x205F, 0x3000]

/-- Rust `char::is_whitespace`; `text.trim().is_empty()` is "every char is
whitespace". -/
def is_rust_whitespace (c : Char) : Bool :=
  rust_whitespace_codes.contains c.toNat

/-- DOM actions (src/src/html_processor.rs `enum DomAction`). -/
inductive DomAction where
  | Inline | Block | Skip | Break | NoBreak | BreakOpportunity
deriving DecidableEq, BEq, Repr

/-- Action table (src/src/html_processor.rs `fn dom_actions`). -/
def dom_actions : List (List Char × DomAction) :=
  [("AREA".toList, DomAction.Skip), ("BASE".toList, DomAction.Skip),
   ("BASEFONT".toList, DomAction.Skip), ("DATALIST".toList, DomAction.Skip),
   ("HEAD".toList, DomAction.Skip), ("LINK".toList, DomAction.Skip),
   ("META".toList, DomAction.Skip), ("NOEMBED".toList, DomAction.Skip),
   ("NOFRAMES".toList, DomAction.Skip), ("PARAM".toList, DomAction.Skip),
   ("RP".toList, DomAction.Skip), ("SCRIPT".toList, DomAction.Skip),
   ("STYLE".toList, DomAction.Skip), ("TEMPLATE".toList, DomAction.Skip),
   ("TITLE".toList, DomAction.Skip), ("NOSCRIPT".toList, DomAction.Skip),
   ("HR".toList, DomAction.Break), ("LISTING".toList, DomAction.Skip),
   ("PLAINTEXT".toList, DomAction.Skip), ("PRE".toList, DomAction.Skip),
   ("XMP".toList, DomAction.Skip), ("BR".toList, DomAction.Break),
   ("RT".toList, DomAction.Skip), ("WBR".toList, DomAction.BreakOpportunity),
   ("INPUT".toList, DomAction.Skip), ("SELECT".toList, DomAction.Skip),
   ("BUTTON".toList, DomAction.Skip), ("TEXTAREA".toList, DomAction.Skip),
   ("ABBR".toList, DomAction.Skip), ("CODE".toList, DomAction.Skip),
   ("IFRAME".toList, DomAction.Skip), ("TIME".toList, DomAction.Skip),
   ("VAR".toList, DomAction.Skip), ("NOBR".toList, DomAction.NoBreak),
   ("SPAN".toList, DomAction.Inline)]

/-- Block-element set (src/src/html_processor.rs `fn default_block_elements`). -/
def default_block_elements : List (List Char) :=
  ["HTML", "BODY", "ADDRESS", "BLOCKQUOTE", "CENTER", "DIALOG", "DIV",
   "FIGURE", "FIGCAPTION", "FOOTER", "FORM", "HEADER", "LEGEND", "LISTING",
   "MAIN", "P", "ARTICLE", "ASIDE", "H1", "H2", "H3", "H4", "H5", "H6",
   "HGROUP", "NAV", "SECTION", "DIR", "DD", "DL", "DT", "MENU", "OL", "UL",
   "LI", "TABLE", "CAPTION", "COL", "TR", "TD", "TH", "FIELDSET", "DETAILS",
   "SUMMARY", "MARQUEE"].map String.toList

/-- The DOM tree (interface of the `kuchikikiki` collaborator restricted to
what the applier reads: tag names, children, text content; `other` covers
the node kinds ignored by the collection pass). -/
inductive DomTree where
  | element (tag : List Char) (children : List DomTree)
  | text (s : List Char)
  | other

/-- Classification of a node (src/src/html_processor.rs
`fn action_for_element`): non-elements are `Inline`; elements are looked up
by uppercased tag name, falling back to `Block` for known block elements and
`Inline` otherwise.  Tag names are ASCII, where `to_uppercase` is the
per-char uppercase map. -/
def action_for_element (t : DomTree) : DomAction :=
  match t with
  | DomTree.element tag _ =>
    let name := tag.map Char.toUpper
    match dom_actions.lookup name with
    | some action => action
    | none =>
      if name ∈ default_block_elements then DomAction.Block else DomAction.Inline
  | _ => DomAction.Inline

/-- Content-unit payload (src/src/html_processor.rs `enum NodeOrTextInner`):
a live text node (carrying its text content) or an absorbed literal
string. -/
inductive NodeOrTextInner where
  | node (text : List Char)
  | txt (s : List Char)
deriving DecidableEq, Repr

/-- Content unit (src/src/html_processor.rs `struct NodeOrText`). -/
structure NodeOrText where
  node : NodeOrTextInner
  chunks : List (List Char)
  has_break_opportunity_after : Bool
deriving DecidableEq, Repr

/-- Constructor (src/src/html_processor.rs `NodeOrText::from_node`); the
wrapped node is always a text node, carried here as its text. -/
def NodeOrText.from_node (text : List Char) : NodeOrText :=
  { node := NodeOrTextInner.node text, chunks := [], has_break_opportunity_after := false }

/-- Constructor (src/src/html_processor.rs `NodeOrText::from_string`). -/
def NodeOrText.from_string (s : List Char) : NodeOrText :=
  { node := NodeOrTextInner.txt s, chunks := [], has_break_opportunity_after := false }

/-- Splittability (src/src/html_processor.rs `NodeOrText::can_split`): only
live nodes can be split. -/
def NodeOrText.can_split (n : NodeOrText) : Bool :=
  match n.node with
  | NodeOrTextInner.node _ => true
  | NodeOrTextInner.txt _ => false

/-- Text content (src/src/html_processor.rs `NodeOrText::text`; the source
returns `Option<String>`, which is always `Some` here because live units
wrap text nodes). -/
def NodeOrText.textOf (n : NodeOrText) : List Char :=
  match n.node with
  | NodeOrTextInner.node t => t
  | NodeOrTextInner.txt s => s

/-- Character length (src/src/html_processor.rs `NodeOrText::length`). -/
def NodeOrText.length (n : NodeOrText) : Nat :=
  n.textOf.length

/-- Chunk accumulation (src/src/html_processor.rs `NodeOrText::push_chunk`). -/
def NodeOrText.push_chunk (n : NodeOrText) (value : List Char) : NodeOrText :=
  { n with chunks := n.chunks ++ [value] }

/-- Boundary right after this unit (src/src/html_processor.rs
`NodeOrText::add_boundary_at_end`): seed the chunks with the full text when
empty, then append an empty chunk. -/
def NodeOrText.add_boundary_at_end (n : NodeOrText) : NodeOrText :=
  let n1 := if n.chunks.isEmpty then { n with chunks := n.chunks ++ [n.textOf] } else n
  { n1 with chunks := n1.chunks ++ [[]] }

/-- Resulting text of a unit after src/src/html_processor.rs
`NodeOrText::split` with a `Separator::Text`: a unit with at most one chunk
is untouched, a literal unit is never rewritten, and a live text node gets
its chunks joined with the separator. -/
def NodeOrText.final_text (sep : List Char) (n : NodeOrText) : List Char :=
  if n.chunks.length ≤ 1 then n.textOf
  else
    match n.node with
    | NodeOrTextInner.node _ => List.intercalate sep n.chunks
    | NodeOrTextInner.txt _ => n.textOf

/-- Paragraph (src/src/html_processor.rs `struct Paragraph`). -/
structure Paragraph where
  element : DomTree
  nodes : List NodeOrText

/-- Constructor (src/src/html_processor.rs `Paragraph::new`). -/
def Paragraph.new (element : DomTree) : Paragraph :=
  { element := element, nodes := [] }

/-- Flattened text (src/src/html_processor.rs `Paragraph::text`). -/
def Paragraph.text (p : Paragraph) : List Char :=
  (p.nodes.map NodeOrText.textOf).join

/-- Setting the trailing break-opportunity flag on the last unit (helper for
src/src/html_processor.rs `Paragraph::set_has_break_opportunity_after`). -/
def set_last_flag : List NodeOrText → List NodeOrText
  | [] => []
  | [n] => [{ n with has_break_opportunity_after := true }]
  | n :: rest => n :: set_last_flag rest

/-- Flag the last content unit (src/src/html_processor.rs
`Paragraph::set_has_break_opportunity_after`). -/
def Paragraph.set_has_break_opportunity_after (p : Paragraph) : Paragraph :=
  { p with nodes := set_last_flag p.nodes }

/-- Offsets right after each zero-width space of a text (the inner loop of
src/src/html_processor.rs `Paragraph::get_forced_opportunities`, without the
running base offset). -/
def zwsp_offsets (s : List Char) : List Nat :=
  (List.range s.length).filter
    (fun idx => decide ((s.getD idx (Char.ofNat 0)).toNat = ZWSP_CODEPOINT))

/-- Loop of src/src/html_processor.rs `Paragraph::get_forced_opportunities`
with the running length accumulator `len` explicit: splittable units
contribute the offset after each zero-width space; every unit flagged
"has break opportunity after" contributes the cumulative length through
itself. -/
def gfo_go : List NodeOrText → Nat → List Nat
  | [], _ => []
  | n :: rest, len =>
    (if n.can_split then (zwsp_offsets n.textOf).map (fun idx => len + idx + 1) else [])
    ++ (if n.has_break_opportunity_after then [len + n.length] else [])
    ++ gfo_go rest (len + n.length)

/-- Forced opportunities (src/src/html_processor.rs
`Paragraph::get_forced_opportunities`). -/
def Paragraph.get_forced_opportunities (p : Paragraph) : List Nat :=
  gfo_go p.nodes 0

/-- Boundary exclusion (src/src/html_processor.rs
`Paragraph::exclude_forced_opportunities`): boundaries are returned as-is
when no forced opportunity exists, otherwise every boundary equal to a
forced offset is filtered out (the source collects `forced` into a
`HashSet`; set membership equals list membership). -/
def Paragraph.exclude_forced_opportunities (p : Paragraph) (boundaries : List Nat) : List Nat :=
  let forced := p.get_forced_opportunities
  if forced.isEmpty then boundaries
  else boundaries.filter (fun b => !(forced.contains b))

/-- Character slicing (src/src/html_processor.rs `fn slice_chars`). -/
def slice_chars (input : List Char) (start fin : Nat) : List Char :=
  (input.drop start).take (fin - start)

/-- The boundary-consuming loop of the non-splittable branch of
src/src/html_processor.rs `HTMLProcessor::split_nodes` (`while boundary <
node_end { boundary_index += 1; boundary = boundaries[boundary_index]; }`).
The walk along `boundary_index` is carried as the current boundary `b` plus
the remaining later boundaries `rest`; the out-of-bounds indexing panic is
the `none` result. -/
def skip_boundaries (b : Nat) (rest : List Nat) (node_end : Nat) : Option (Nat × List Nat) :=
  if b < node_end then
    match rest with
    | [] => none
    | b2 :: rest2 => skip_boundaries b2 rest2 node_end
  else some (b, rest)

/-- The chunk-slicing loop of the splittable branch of
src/src/html_processor.rs `HTMLProcessor::split_nodes`: push a chunk at each
boundary inside the node, consuming boundaries (`none` is the indexing
panic), returning the final boundary state, chunk start and node. -/
def chunk_loop (b : Nat) (rest : List Nat) (node_text : List Char)
    (node_start node_end chunk_start : Nat) (n : NodeOrText) :
    Option (Nat × List Nat × Nat × NodeOrText) :=
  if b < node_end then
    let boundary_in_node := b - node_start
    let n1 := n.push_chunk (slice_chars node_text chunk_start boundary_in_node)
    match rest with
    | [] => none
    | b2 :: rest2 => chunk_loop b2 rest2 node_text node_start node_end boundary_in_node n1
  else some (b, rest, chunk_start, n)

/-- Node walk of src/src/html_processor.rs `HTMLProcessor::split_nodes`
(the `for node in nodes.iter_mut()` loop), with the loop state — current
boundary `b`, remaining boundaries `rest`, running offset `node_start`,
`last_node_can_split` — explicit; `none` is the boundary-indexing panic. -/
def split_nodes_go : List NodeOrText → Nat → List Nat → Nat → Bool → Option (List NodeOrText)
  | [], _, _, _, _ => some []
  | n :: ns, b, rest, node_start, last_node_can_split =>
    let node_text := n.textOf
    let node_len := node_text.length
    let node_end := node_start + node_len
    if !n.can_split then
      let n1 := if last_node_can_split && (b == node_start) then n.add_boundary_at_end else n
      match skip_boundaries b rest node_end with
      | none => none
      | some (b2, rest2) =>
        (split_nodes_go ns b2 rest2 node_end false).map (fun tail => n1 :: tail)
    else if node_end ≤ b then
      (split_nodes_go ns b rest node_end true).map (fun tail => n :: tail)
    else
      match chunk_loop b rest node_text node_start node_end 0 n with
      | none => none
      | some (b2, rest2, chunk_start, n1) =>
        let n2 := n1.push_chunk (slice_chars node_text chunk_start node_len)
        (split_nodes_go ns b2 rest2 node_end true).map (fun tail => n2 :: tail)

/-- Chunk assignment (src/src/html_processor.rs
`HTMLProcessor::split_nodes`): `boundaries[0]` on an empty list is the
indexing panic (`none`). -/
def split_nodes (nodes : List NodeOrText) (boundaries : List Nat) : Option (List NodeOrText) :=
  match boundaries with
  | [] => none
  | b0 :: rest => split_nodes_go nodes b0 rest 0 false

/-- Outcome of `apply_to_paragraph`: untouched paragraph, a boundary-index
panic inside `split_nodes`, or the rewritten content units. -/
inductive ApplyResult where
  | unchanged
  | panicked
  | applied (nodes : List NodeOrText)
deriving DecidableEq, Repr

/-- Paragraph processing (src/src/html_processor.rs
`HTMLProcessor::apply_to_paragraph`): skip paragraphs with no splittable
unit, whitespace-only text, no raw boundaries, or no boundary surviving
forced-opportunity exclusion; otherwise append the sentinel
`length + 1` and assign chunks via `split_nodes`.  The final
`apply_block_style` annotation only touches the anchor element's
`class`/`style` attributes and is outside this embedding. -/
def apply_to_paragraph (pr : Parser) (paragraph : Paragraph) : ApplyResult :=
  if !(paragraph.nodes.any NodeOrText.can_split) then ApplyResult.unchanged
  else if (paragraph.text).all is_rust_whitespace then ApplyResult.unchanged
  else
    let boundaries := pr.parse_boundaries_from_chars paragraph.text
    if boundaries.isEmpty then ApplyResult.unchanged
    else
      let adjusted := paragraph.exclude_forced_opportunities boundaries
      if adjusted.isEmpty then ApplyResult.unchanged
      else
        match split_nodes paragraph.nodes (adjusted ++ [paragraph.text.length + 1]) with
        | none => ApplyResult.panicked
        | some ns => ApplyResult.applied ns

/-- Per-unit text contents of a paragraph after `apply_to_paragraph` with a
text separator (`NodeOrText::split` writes the joined chunks back into each
live text node). -/
def apply_texts (pr : Parser) (sep : List Char) (paragraph : Paragraph) : List (List Char) :=
  match apply_to_paragraph pr paragraph with
  | ApplyResult.applied ns => ns.map (NodeOrText.final_text sep)
  | _ => paragraph.nodes.map NodeOrText.textOf

/-! Paragraph collection (src/src/html_processor.rs
`HTMLProcessor::collect_blocks`).  In the source the in-progress parent
paragraph is passed BY VALUE: every recursive call on an element child
receives `Some(block.clone())`, a deep clone of the unit vector, so
mutations the callee performs on its paragraph argument (pushing text
units, setting the break-opportunity flag) never reach the caller's
paragraph.  A pure function taking the paragraph by value and returning
only the emitted paragraphs models this exactly. -/

mutual

/-- Collection pass (src/src/html_processor.rs
`HTMLProcessor::collect_blocks`); the returned list is what the call
appends to `output`.  `Skip` contributes nothing; `Break` emits the
(cloned) parent with its last unit flagged when non-empty;
`BreakOpportunity` flags the moved-in clone, which is then dropped, so it
contributes nothing; otherwise a new paragraph is started when there is no
parent or the node is a `Block`, the children are walked under it, and a
newly started non-empty paragraph is emitted last. -/
def collect_blocks (t : DomTree) (parent : Option Paragraph) : List Paragraph :=
  let action := action_for_element t
  if action = DomAction.Skip then []
  else if action = DomAction.Break then
    match parent with
    | some p => if !p.nodes.isEmpty then [p.set_has_break_opportunity_after] else []
    | none => []
  else if action = DomAction.BreakOpportunity then []
  else
    let is_new_block : Bool := parent.isNone || (action == DomAction.Block)
    match (if is_new_block then some (Paragraph.new t) else parent) with
    | none => []
    | some block0 =>
      let r :=
        match t with
        | DomTree.element _ cc => collect_children action block0 cc
        | _ => (block0, [])
      r.2 ++ (if is_new_block && !r.1.nodes.isEmpty then [r.1] else [])

/-- Child loop of `collect_blocks` (`for child in element.children()`):
element children recurse with a clone of the current paragraph, text
children are absorbed as literal strings under `NoBreak` and as live text
nodes otherwise, and other node kinds are ignored. -/
def collect_children (action : DomAction) (b : Paragraph) : List DomTree → Paragraph × List Paragraph
  | [] => (b, [])
  | c :: rest =>
    match c with
    | DomTree.element tag cc =>
      let outs := collect_blocks (DomTree.element tag cc) (some b)
      let r := collect_children action b rest
      (r.1, outs ++ r.2)
    | DomTree.text s =>
      let unit := if action == DomAction.NoBreak
        then NodeOrText.from_string s else NodeOrText.from_node s
      collect_children action { b with nodes := b.nodes ++ [unit] } rest
    | DomTree.other => collect_children action b rest

end

/-! Helper lemmas about forced opportunities. -/

/-- Total character length of a unit list. -/
def sum_len (ns : List NodeOrText) : Nat :=
  (ns.map NodeOrText.length).sum

/-- The offsets claim C4 describes for one content unit relative to the
cumulative length `base` of the units before it: an offset right after each
zero-width space when the unit is splittable, and the cumulative length
through the unit when it is flagged. -/
def unit_forced (u : NodeOrText) (base k : Nat) : Prop :=
  (u.can_split = true
    ∧ ∃ i, i < u.textOf.length
        ∧ (u.textOf.getD i (Char.ofNat 0)).toNat = ZWSP_CODEPOINT
        ∧ k = base + i + 1)
  ∨ (u.has_break_opportunity_after = true ∧ k = base + u.length)

/-- The forced-opportunity set claim C4 describes for a paragraph. -/
def forced_spec (p : Paragraph) (k : Nat) : Prop :=
  ∃ j, ∃ h : j < p.nodes.length,
    unit_forced (p.nodes.get ⟨j, h⟩) (sum_len (p.nodes.take j)) k

lemma mem_zwsp_part {n : NodeOrText} {len k : Nat} :
    (k ∈ if n.can_split then (zwsp_offsets n.textOf).map (fun idx => len + idx + 1) else [])
      ↔ (n.can_split = true
          ∧ ∃ i, i < n.textOf.length
              ∧ (n.textOf.getD i (Char.ofNat 0)).toNat = ZWSP_CODEPOINT
              ∧ k = len + i + 1) := by
  cases hcs : n.can_split with
  | false => simp
  | true =>
    simp only [if_true, List.mem_map, zwsp_offsets, List.mem_filter, List.mem_range,
      decide_eq_true_eq, true_and]
    constructor
    · rintro ⟨i, ⟨hi, hz⟩, hk⟩
      exact ⟨i, hi, hz, hk.symm⟩
    · rintro ⟨i, hi, hz, hk⟩
      exact ⟨i, ⟨hi, hz⟩, hk.symm⟩

lemma gfo_go_mem (k : Nat) : ∀ (ns : List NodeOrText) (len : Nat),
    k ∈ gfo_go ns len
      ↔ ∃ j, ∃ h : j < ns.length,
          unit_forced (ns.get ⟨j, h⟩) (len + sum_len (ns.take j)) k := by
  intro ns
  induction ns with
  | nil => intro len; simp [gfo_go]
  | cons n rest ih =>
    intro len
    have hsum : ∀ j : Nat, len + sum_len ((n :: rest).take (j + 1))
        = (len + n.length) + sum_len (rest.take j) := by
      intro j
      simp [sum_len, List.take_succ_cons, Nat.add_assoc]
    simp only [gfo_go, List.mem_append, mem_zwsp_part, ih (len + n.length)]
    constructor
    · rintro ((⟨hcs, i, hi, hz, hk⟩ | hB) | ⟨j', h', hu⟩)
      · refine ⟨0, by simp, Or.inl ⟨hcs, i, hi, hz, ?_⟩⟩
        simpa [sum_len] using hk
      · cases hf : n.has_break_opportunity_after with
        | false => simp [hf] at hB
        | true =>
          simp [hf] at hB
          have h0 : (0 : Nat) < (n :: rest).length := by simp
          have hu : unit_forced ((n :: rest).get ⟨0, h0⟩)
              (len + sum_len (List.take 0 (n :: rest))) k := by
            refine Or.inr ⟨hf, ?_⟩
            simpa [sum_len] using hB
          exact ⟨0, h0, hu⟩
      · refine ⟨j' + 1, by simpa using h', ?_⟩
        rw [show (n :: rest).get ⟨j' + 1, by simpa using h'⟩ = rest.get ⟨j', h'⟩ from rfl,
          hsum j']
        exact hu
    · rintro ⟨j, h, hu⟩
      cases j with
      | zero =>
        rw [show (n :: rest).get ⟨0, h⟩ = n from rfl] at hu
        rcases hu with ⟨hcs, i, hi, hz, hk⟩ | ⟨hf, hk⟩
        · exact Or.inl (Or.inl ⟨hcs, i, hi, hz, by simpa [sum_len] using hk⟩)
        · refine Or.inl (Or.inr ?_)
          simp [hf, sum_len] at hk ⊢
          omega
      | succ j' =>
        refine Or.inr ⟨j', by simpa using h, ?_⟩
        rw [show (n :: rest).get ⟨j' + 1, h⟩ = rest.get ⟨j', by simpa using h⟩ from rfl,
          hsum j'] at hu
        exact hu

lemma forced_mem_iff (p : Paragraph) (k : Nat) :
    k ∈ p.get_forced_opportunities ↔ forced_spec p k := by
  unfold Paragraph.get_forced_opportunities forced_spec
  rw [gfo_go_mem]
  simp

lemma exclude_eq_filter (p : Paragraph) (bs : List Nat) :
    p.exclude_forced_opportunities bs
      = bs.filter (fun b => !(p.get_forced_opportunities.contains b)) := by
  simp only [Paragraph.exclude_forced_opportunities]
  split
  · rename_i h
    rw [List.isEmpty_iff] at h
    rw [h]
    simp
  · rfl

lemma mem_exclude_iff {p : Paragraph} {bs : List Nat} {k : Nat} :
    k ∈ p.exclude_forced_opportunities bs
      ↔ k ∈ bs ∧ k ∉ p.get_forced_opportunities := by
  rw [exclude_eq_filter, List.mem_filter]
  simp

/-! Helper lemmas about `split_nodes` boundary consumption. -/

lemma skip_boundaries_some :
    ∀ (rest : List Nat) (b node_end s : Nat),
      (b :: rest).getLast? = some s → node_end ≤ s →
      ∃ b2 rest2, skip_boundaries b rest node_end = some (b2, rest2)
        ∧ node_end ≤ b2 ∧ (b2 :: rest2).getLast? = some s := by
  intro rest
  induction rest with
  | nil =>
    intro b node_end s hlast hs
    simp only [List.getLast?_singleton, Option.some.injEq] at hlast
    subst hlast
    unfold skip_boundaries
    rw [if_neg (by omega)]
    exact ⟨b, [], rfl, hs, by simp⟩
  | cons b2 rest2 ih =>
    intro b node_end s hlast hs
    have hlast2 : (b2 :: rest2).getLast? = some s := by
      rw [← hlast]
      exact List.getLast?_cons_cons.symm
    unfold skip_boundaries
    by_cases hb : b < node_end
    · rw [if_pos hb]
      exact ih b2 node_end s hlast2 hs
    · rw [if_neg hb]
      exact ⟨b, b2 :: rest2, rfl, by omega, hlast⟩

lemma chunk_loop_some :
    ∀ (rest : List Nat) (b : Nat) (node_text : List Char)
      (node_start node_end chunk_start : Nat) (n : NodeOrText) (s : Nat),
      (b :: rest).getLast? = some s → node_end ≤ s →
      ∃ b2 rest2 cs n1,
        chunk_loop b rest node_text node_start node_end chunk_start n
          = some (b2, rest2, cs, n1)
        ∧ node_end ≤ b2 ∧ (b2 :: rest2).getLast? = some s := by
  intro rest
  induction rest with
  | nil =>
    intro b node_text node_start node_end chunk_start n s hlast hs
    simp only [List.getLast?_singleton, Option.some.injEq] at hlast
    subst hlast
    unfold chunk_loop
    rw [if_neg (by omega)]
    exact ⟨b, [], chunk_start, n, rfl, hs, by simp⟩
  | cons b2 rest2 ih =>
    intro b node_text node_start node_end chunk_start n s hlast hs
    have hlast2 : (b2 :: rest2).getLast? = some s := by
      rw [← hlast]
      exact List.getLast?_cons_cons.symm
    unfold chunk_loop
    by_cases hb : b < node_end
    · rw [if_pos hb]
      exact ih b2 node_text node_start node_end (b - node_start)
        (n.push_chunk (slice_chars node_text chunk_start (b - node_start))) s hlast2 hs
    · rw [if_neg hb]
      exact ⟨b, b2 :: rest2, chunk_start, n, rfl, by omega, hlast⟩

lemma split_nodes_go_some :
    ∀ (ns : List NodeOrText) (b : Nat) (rest : List Nat)
      (node_start : Nat) (flag : Bool) (s : Nat),
      (b :: rest).getLast? = some s → node_start + sum_len ns < s →
      (split_nodes_go ns b rest node_start flag).isSome = true := by
  intro ns
  induction ns with
  | nil => intro b rest node_start flag s _ _; simp [split_nodes_go]
  | cons n ns ih =>
    intro b rest node_start flag s hlast hlt
    have hsum : node_start + n.length + sum_len ns < s := by
      simp only [sum_len, List.map_cons, List.sum_cons] at hlt ⊢
      omega
    have hend : node_start + n.textOf.length ≤ s := by
      have : n.length = n.textOf.length := rfl
      omega
    have hlen : n.length = n.textOf.length := rfl
    cases hcs : n.can_split with
    | false =>
      obtain ⟨b2, rest2, heq, hle, hlast2⟩ :=
        skip_boundaries_some rest b (node_start + n.textOf.length) s hlast hend
      simp only [split_nodes_go, hcs, Bool.not_false, if_true, heq, Option.isSome_map']
      exact ih b2 rest2 (node_start + n.textOf.length) false s hlast2 (by omega)
    | true =>
      by_cases hb : node_start + n.textOf.length ≤ b
      · simp only [split_nodes_go, hcs, Bool.not_true, Bool.false_eq_true, if_false,
          if_pos hb, Option.isSome_map']
        exact ih b rest (node_start + n.textOf.length) true s hlast (by omega)
      · obtain ⟨b2, rest2, cs, n1, heq, hle, hlast2⟩ :=
          chunk_loop_some rest b n.textOf node_start (node_start + n.textOf.length) 0 n s
            hlast hend
        simp only [split_nodes_go, hcs, Bool.not_true, Bool.false_eq_true, if_false,
          if_neg hb, heq, Option.isSome_map']
        exact ih b2 rest2 (node_start + n.textOf.length) true s hlast2 (by omega)

lemma paragraph_text_length (p : Paragraph) : p.text.length = sum_len p.nodes := by
  simp only [Paragraph.text, sum_len, List.length_join, List.map_map]
  rfl

/-! Claim theorems for the tree applier. -/

/-- Claim C4: forced opportunities are exactly the offsets right after each
zero-width space of a splittable unit plus the cumulative length through
each flagged unit (`forced_spec`); exclusion filters out exactly the raw
boundaries equal to a forced offset; and when nothing survives exclusion
the paragraph is left entirely unchanged. -/
theorem forced_opportunities_spec_c4 (para : Paragraph) (k : Nat) (bs : List Nat)
    (pr : Parser) :
    (k ∈ para.get_forced_opportunities ↔ forced_spec para k)
    ∧ para.exclude_forced_opportunities bs
        = bs.filter (fun b => !(para.get_forced_opportunities.contains b))
    ∧ (para.exclude_forced_opportunities (pr.parse_boundaries_from_chars para.text) = []
        → apply_to_paragraph pr para = ApplyResult.unchanged) := by
  refine ⟨forced_mem_iff para k, exclude_eq_filter para bs, ?_⟩
  intro hadj
  simp only [apply_to_paragraph]
  split
  · rfl
  · split
    · rfl
    · split
      · rfl
      · split
        · rfl
        · rename_i h
          exact absurd (by rw [hadj]; rfl) h

/-- Claim C4 witness: a paragraph whose adjusted boundary list is empty is
left unchanged. -/
theorem forced_opportunities_spec_c4_witness :
    apply_to_paragraph (Parser.new [])
      (Paragraph.mk DomTree.other [NodeOrText.from_node ['a', 'b']])
      = ApplyResult.unchanged :=
  (forced_opportunities_spec_c4
      (Paragraph.mk DomTree.other [NodeOrText.from_node ['a', 'b']]) 0 []
      (Parser.new [])).2.2 (by decide)

/-- Claim C7, amended: a boundary that survives forced-opportunity exclusion
is never a forced offset; in particular the offset immediately after a
zero-width space of a splittable unit (a separator inserted by an earlier
run) is never re-proposed.  The original claim fails because a model may
propose a boundary immediately BEFORE an existing zero-width space, which
is not a forced offset (see the counterexample). -/
theorem adjusted_boundaries_avoid_forced (para : Paragraph) (bs : List Nat) (k : Nat)
    (hf : forced_spec para k) : k ∉ para.exclude_forced_opportunities bs := by
  intro hmem
  rw [mem_exclude_iff] at hmem
  exact hmem.2 ((forced_mem_iff para k).mpr hf)

/-- Claim C7 amended-theorem witness at a concrete paragraph. -/
theorem adjusted_boundaries_avoid_forced_witness :
    forced_spec (Paragraph.mk DomTree.other [NodeOrText.from_node ['a', ZWSPchar, 'b']]) 2
    ∧ 2 ∉ (Paragraph.mk DomTree.other
        [NodeOrText.from_node ['a', ZWSPchar, 'b']]).exclude_forced_opportunities [2] :=
  ⟨⟨0, by decide, Or.inl ⟨rfl, 1, by decide, by decide, by decide⟩⟩,
   adjusted_boundaries_avoid_forced
     (Paragraph.mk DomTree.other [NodeOrText.from_node ['a', ZWSPchar, 'b']]) [2] 2
     ⟨0, by decide, Or.inl ⟨rfl, 1, by decide, by decide, by decide⟩⟩⟩

/-- Claim C7, counterexample: with the model
`{UW4: {"c": 10000, "​": 10000, "x": -10000}}` (one parser reused for
both runs, text separator U+200B), the first run on `<span>abcd</span>`
turns the text into `ab​cd`; re-running the applier on that output
inserts a second separator at offset 2 — immediately before the separator
the first run placed there, a position that already carries one — giving
`ab​​cd`. -/
theorem reapply_double_separator_cex :
    ((collect_blocks (DomTree.element "span".toList [DomTree.text "abcd".toList]) none).map
      (fun q => apply_texts
        (Parser.new [(FeatureKey.UW4, [(['c'], 10000), ([ZWSPchar], 10000), (['x'], -10000)])])
        [ZWSPchar] q)
      = [[['a', 'b', ZWSPchar, 'c', 'd']]])
    ∧ ((collect_blocks (DomTree.element "span".toList
        [DomTree.text ['a', 'b', ZWSPchar, 'c', 'd']]) none).map
      (fun q => apply_texts
        (Parser.new [(FeatureKey.UW4, [(['c'], 10000), ([ZWSPchar], 10000), (['x'], -10000)])])
        [ZWSPchar] q)
      = [[['a', 'b', ZWSPchar, ZWSPchar, 'c', 'd']]]) := by
  constructor
  · simp +decide [collect_blocks, collect_children, action_for_element]
  · simp +decide [collect_blocks, collect_children, action_for_element]

/-- Claim C5: the collection pass passes the parent paragraph to each child
call as a clone (`Some(block.clone())`), so the `BreakOpportunity` branch
flags the clone and the flag is lost: for `ab<wbr>cd` no unit of the
collected paragraph carries the "has break opportunity after" flag, the
forced-opportunity set is empty, and with the model `{UW4: {"c": 10000}}`
the applier inserts a zero-width-space separator at exactly the offset 2
where the `<wbr>` marker sits (second unit text becomes `​cd`),
contradicting the claim. -/
theorem wbr_duplicate_separator_bug :
    ((collect_blocks
      (DomTree.element "span".toList
        [DomTree.text "ab".toList,
         DomTree.element "wbr".toList [],
         DomTree.text "cd".toList]) none).map
      (fun q => q.nodes.map (fun u => u.has_break_opportunity_after))
      = [[false, false]])
    ∧ ((collect_blocks
      (DomTree.element "span".toList
        [DomTree.text "ab".toList,
         DomTree.element "wbr".toList [],
         DomTree.text "cd".toList]) none).map
      (fun q => apply_texts (Parser.new [(FeatureKey.UW4, [(['c'], 10000)])]) [ZWSPchar] q)
      = [["ab".toList, ZWSPchar :: "cd".toList]]) := by
  constructor
  · simp +decide [collect_blocks, collect_children, action_for_element]
  · simp +decide [collect_blocks, collect_children, action_for_element]

/-- Claim C6: because each child call receives a clone of the parent
paragraph, text pushed inside an inline child element is lost when the
clone is dropped, and a `Break` child emits the cloned snapshot while the
caller's paragraph keeps accumulating: for `x<span>a</span>y` the single
collected paragraph flattens to `xy` (the text node `a` is in no
paragraph), and for `a<br>b` the text `a` appears in two collected
paragraphs (`a` and `ab`) — both contradicting the claim. -/
theorem inline_text_dropped_bug :
    ((collect_blocks
      (DomTree.element "span".toList
        [DomTree.text "x".toList,
         DomTree.element "span".toList [DomTree.text "a".toList],
         DomTree.text "y".toList]) none).map Paragraph.text
      = ["xy".toList])
    ∧ ((collect_blocks
      (DomTree.element "span".toList
        [DomTree.text "a".toList,
         DomTree.element "br".toList [],
         DomTree.text "b".toList]) none).map Paragraph.text
      = ["a".toList, "ab".toList]) := by
  constructor
  · simp +decide [collect_blocks, collect_children, action_for_element]
  · simp +decide [collect_blocks, collect_children, action_for_element]

/-- Claim C10: a boundary list that is non-empty, strictly increasing and
ends with the sentinel `sum of unit lengths + 1` (the flattened length plus
one) makes every boundary access of `split_nodes` in-bounds (no `none`,
which models the indexing panic); and `apply_to_paragraph` always calls
`split_nodes` under that precondition, so it never panics. -/
theorem split_nodes_in_bounds :
    (∀ (ns : List NodeOrText) (bs : List Nat), bs ≠ [] →
        List.Chain' (· < ·) bs → bs.getLast? = some (sum_len ns + 1) →
        (split_nodes ns bs).isSome = true)
    ∧ (∀ (pr : Parser) (para : Paragraph),
        (para.exclude_forced_opportunities (pr.parse_boundaries_from_chars para.text)
            ++ [para.text.length + 1]) ≠ []
        ∧ List.Chain' (· < ·)
            (para.exclude_forced_opportunities (pr.parse_boundaries_from_chars para.text)
              ++ [para.text.length + 1])
        ∧ (para.exclude_forced_opportunities (pr.parse_boundaries_from_chars para.text)
            ++ [para.text.length + 1]).getLast? = some (sum_len para.nodes + 1)
        ∧ para.text.length = sum_len para.nodes)
    ∧ (∀ (pr : Parser) (para : Paragraph),
        apply_to_paragraph pr para ≠ ApplyResult.panicked) := by
  refine ⟨?_, ?_, ?_⟩
  · intro ns bs hne _ hlast
    cases bs with
    | nil => exact absurd rfl hne
    | cons b0 rest =>
      unfold split_nodes
      exact split_nodes_go_some ns b0 rest 0 false (sum_len ns + 1) hlast (by omega)
  · intro pr para
    refine ⟨by simp, ?_, ?_, paragraph_text_length para⟩
    · have hpw : List.Pairwise (· < ·)
          (para.exclude_forced_opportunities (pr.parse_boundaries_from_chars para.text)) := by
        rw [exclude_eq_filter]
        exact (pbs_pairwise pr para.text).filter _
      have hlt : ∀ b ∈ para.exclude_forced_opportunities
          (pr.parse_boundaries_from_chars para.text), b < para.text.length :=
        fun b hb => (pbs_mem_bounds (mem_exclude_iff.mp hb).1).2
      apply List.Pairwise.chain'
      rw [List.pairwise_append]
      refine ⟨hpw, by simp, ?_⟩
      intro a ha b hb
      rw [List.mem_singleton] at hb
      subst hb
      have := hlt a ha
      omega
    · rw [← paragraph_text_length]
      exact List.getLast?_concat _
  · intro pr para
    simp only [apply_to_paragraph]
    split
    · exact fun h => by cases h
    · split
      · exact fun h => by cases h
      · split
        · exact fun h => by cases h
        · split
          · exact fun h => by cases h
          · have hsome : (split_nodes para.nodes
                (para.exclude_forced_opportunities
                  (pr.parse_boundaries_from_chars para.text)
                  ++ [para.text.length + 1])).isSome = true := by
              cases hadj : para.exclude_forced_opportunities
                  (pr.parse_boundaries_from_chars para.text)
                  ++ [para.text.length + 1] with
              | nil => simp at hadj
              | cons b0 rest =>
                unfold split_nodes
                apply split_nodes_go_some para.nodes b0 rest 0 false (sum_len para.nodes + 1)
                · rw [← hadj, ← paragraph_text_length para]
                  exact List.getLast?_concat _
                · omega
            cases hs : split_nodes para.nodes
                (para.exclude_forced_opportunities
                  (pr.parse_boundaries_from_chars para.text)
                  ++ [para.text.length + 1]) with
            | none => rw [hs] at hsome; simp at hsome
            | some ns => simp

/-- Claim C10 witness: a concrete in-bounds split. -/
theorem split_nodes_in_bounds_witness :
    ([1, 2] : List Nat) ≠ []
    ∧ (split_nodes [NodeOrText.from_node ['a']] [1, 2]).isSome = true :=
  ⟨by decide,
   split_nodes_in_bounds.1 [NodeOrText.from_node ['a']] [1, 2] (by decide)
     (by simp [List.chain'_cons]) (by rfl)⟩
